import Mathlib

/-!
Verification of the cycloidal drive calculator
(src/Cycloidal_Calculator.py) against its specification.

The computational core is embedded shallowly over the reals:
`cycloidal_disk_shape` mirrors the Python function of the same name
(lines 20-26), `pin_angles` / `pin_layout` mirror the pin placement in
`main` (lines 62-64), and `gear_reduction` / `disk_hole_diameter` mirror
the derived-quantity lines (83, 86).  NumPy float arrays become lists of
real numbers; `np.linspace` becomes `linspace` below.  Python's `round`
(banker's rounding, ties to even) is embedded as `roundHalfEven` over ℚ.
-/

namespace CycloidalCalculator

open Real

/-- The denominator of the arctangent argument in the profile formula,
`R / (e * N) - cos ((1 - N) * t)` (source lines 23-24). -/
noncomputable def arctan_denom (R e : ℝ) (N : ℕ) (t : ℝ) : ℝ :=
  R / (e * N) - Real.cos ((1 - (N : ℝ)) * t)

/-- Scalar form of the x-coordinate computed on source line 23:
`x = (R*cos(t)) - (Rr*cos(t + arctan(sin((1-N)*t) / ((R/(e*N)) - cos((1-N)*t))))) - (e*cos(N*t))`. -/
noncomputable def disk_x (R Rr e : ℝ) (N : ℕ) (t : ℝ) : ℝ :=
  (R * Real.cos t)
    - (Rr * Real.cos (t + Real.arctan (Real.sin ((1 - (N : ℝ)) * t) / arctan_denom R e N t)))
    - (e * Real.cos ((N : ℝ) * t))

/-- Scalar form of the y-coordinate computed on source line 24:
`y = (-R*sin(t)) + (Rr*sin(t + arctan(sin((1-N)*t) / ((R/(e*N)) - cos((1-N)*t))))) + (e*sin(N*t))`. -/
noncomputable def disk_y (R Rr e : ℝ) (N : ℕ) (t : ℝ) : ℝ :=
  (-R * Real.sin t)
    + (Rr * Real.sin (t + Real.arctan (Real.sin ((1 - (N : ℝ)) * t) / arctan_denom R e N t)))
    + (e * Real.sin ((N : ℝ) * t))

/-- `np.linspace a b n`: `n` evenly spaced samples over the closed
interval `[a, b]`; sample `i` is `a + (b - a) * i / (n - 1)`.
(For `n = 1` NumPy returns `[a]`; real division by zero gives the same.) -/
noncomputable def linspace (a b : ℝ) (n : ℕ) : List ℝ :=
  (List.range n).map fun i : ℕ => a + (b - a) * i / ((n : ℝ) - 1)

/-- The profile generator `cycloidal_disk_shape` (source lines 20-26):
sample `t` over `[0, 2π]` with `num_points` points and evaluate the
x- and y-formulas elementwise, returning the pair of coordinate lists. -/
noncomputable def cycloidal_disk_shape (R Rr e : ℝ) (N : ℕ) (num_points : ℕ) :
    List ℝ × List ℝ :=
  ((linspace 0 (2 * Real.pi) num_points).map (disk_x R Rr e N),
   (linspace 0 (2 * Real.pi) num_points).map (disk_y R Rr e N))

/-- The pin angles of source line 62:
`np.linspace(0, 2*np.pi, N, endpoint=False)`, i.e. angle `i` is `2π·i/N`. -/
noncomputable def pin_angles (N : ℕ) : List ℝ :=
  (List.range N).map fun i : ℕ => 2 * Real.pi * i / N

/-- The pin centers of source lines 63-64 (with `center_x = center_y = 0`):
`(R * cos θ, R * sin θ)` for each pin angle θ. -/
noncomputable def pin_layout (R : ℝ) (N : ℕ) : List (ℝ × ℝ) :=
  (pin_angles N).map fun θ => (R * Real.cos θ, R * Real.sin θ)

/-- The gear reduction of source line 83: `int(N - 1)`. -/
def gear_reduction (N : ℕ) : ℤ :=
  (N : ℤ) - 1

/-- Python's built-in `round` to the nearest integer with ties going to
the even neighbour (banker's rounding), over exact rationals. -/
def roundHalfEven (q : ℚ) : ℤ :=
  if q - ⌊q⌋ < 1 / 2 then ⌊q⌋
  else if 1 / 2 < q - ⌊q⌋ then ⌊q⌋ + 1
  else if ⌊q⌋ % 2 = 0 then ⌊q⌋ else ⌊q⌋ + 1

/-- The disk hole diameter of source line 86:
`round((drp + 2*e) * 1000) / 1000`. -/
def disk_hole_diameter (drp e : ℚ) : ℚ :=
  (roundHalfEven ((drp + 2 * e) * 1000) : ℚ) / 1000

/-- `roundHalfEven` is within 1/2 of its argument. -/
theorem abs_roundHalfEven_sub_le (q : ℚ) : |(roundHalfEven q : ℚ) - q| ≤ 1 / 2 := by
  have h1 : (⌊q⌋ : ℚ) ≤ q := Int.floor_le q
  have h2 : q < ⌊q⌋ + 1 := Int.lt_floor_add_one q
  unfold roundHalfEven
  split
  · rw [abs_le]; constructor <;> push_cast <;> linarith
  · split
    · rw [abs_le]; constructor <;> push_cast <;> linarith
    · split <;> (rw [abs_le]; constructor <;> push_cast <;> linarith)

/-- `sin ((1 - N) * 2π) = 0` for natural `N`. -/
theorem sin_one_sub_nat_two_pi (N : ℕ) : Real.sin ((1 - (N : ℝ)) * (2 * π)) = 0 := by
  have h : (1 - (N : ℝ)) * (2 * π) = ((2 * (1 - (N : ℤ)) : ℤ) : ℝ) * π := by
    push_cast; ring
  rw [h, Real.sin_int_mul_pi]

/-- `cos ((1 - N) * 2π) = 1` for natural `N`. -/
theorem cos_one_sub_nat_two_pi (N : ℕ) : Real.cos ((1 - (N : ℝ)) * (2 * π)) = 1 := by
  have h : (1 - (N : ℝ)) * (2 * π) = ((1 - (N : ℤ) : ℤ) : ℝ) * (2 * π) := by
    push_cast; ring
  rw [h, Real.cos_int_mul_two_pi]

/-- `cos (N * 2π) = 1` for natural `N`. -/
theorem cos_nat_two_pi (N : ℕ) : Real.cos ((N : ℝ) * (2 * π)) = 1 := by
  have h : ((N : ℝ)) * (2 * π) = (((N : ℤ) : ℤ) : ℝ) * (2 * π) := by push_cast; ring
  rw [h, Real.cos_int_mul_two_pi]

/-- `sin (N * 2π) = 0` for natural `N`. -/
theorem sin_nat_two_pi (N : ℕ) : Real.sin ((N : ℝ) * (2 * π)) = 0 := by
  have h : ((N : ℝ)) * (2 * π) = ((2 * (N : ℤ) : ℤ) : ℝ) * π := by push_cast; ring
  rw [h, Real.sin_int_mul_pi]

/-- C1: for every valid parameter set and sample index i < numPoints, the
profile generator evaluates sample i at t_i = 2π·i/(numPoints−1), with
x(t_i) = R·cos t_i − Rr·cos(t_i + arctan(sin((1−N)t_i)/(R/(eN) − cos((1−N)t_i)))) − e·cos(N·t_i)
and y(t_i) = −R·sin t_i + Rr·sin(same phase) + e·sin(N·t_i), using the
one-argument arctangent. -/
theorem profile_formula (R Rr e : ℝ) (N n : ℕ)
    (hR : 0 < R) (hRr : 0 < Rr) (he : 0 < e) (hN : 2 ≤ N) (hn : 2 ≤ n)
    (i : ℕ) (hi : i < n) :
    (cycloidal_disk_shape R Rr e N n).1[i]? =
      some ((R * Real.cos (2 * Real.pi * i / ((n : ℝ) - 1)))
        - (Rr * Real.cos (2 * Real.pi * i / ((n : ℝ) - 1)
            + Real.arctan (Real.sin ((1 - (N : ℝ)) * (2 * Real.pi * i / ((n : ℝ) - 1)))
              / (R / (e * N) - Real.cos ((1 - (N : ℝ)) * (2 * Real.pi * i / ((n : ℝ) - 1)))))))
        - (e * Real.cos ((N : ℝ) * (2 * Real.pi * i / ((n : ℝ) - 1))))) ∧
    (cycloidal_disk_shape R Rr e N n).2[i]? =
      some ((-R * Real.sin (2 * Real.pi * i / ((n : ℝ) - 1)))
        + (Rr * Real.sin (2 * Real.pi * i / ((n : ℝ) - 1)
            + Real.arctan (Real.sin ((1 - (N : ℝ)) * (2 * Real.pi * i / ((n : ℝ) - 1)))
              / (R / (e * N) - Real.cos ((1 - (N : ℝ)) * (2 * Real.pi * i / ((n : ℝ) - 1)))))))
        + (e * Real.sin ((N : ℝ) * (2 * Real.pi * i / ((n : ℝ) - 1))))) := by
  constructor <;>
    simp only [cycloidal_disk_shape, linspace, List.getElem?_map, List.getElem?_range hi,
      Option.map_some', disk_x, disk_y, arctan_denom, sub_zero, zero_add]

/-- Witness for C1 at R = 50, Rr = 2, e = 0.5, N = 26, numPoints = 4,
sample index i = 2 (t = 4π/3). -/
theorem profile_formula_witness :
    (0 : ℝ) < 50 ∧ (0 : ℝ) < 2 ∧ (0 : ℝ) < 1 / 2 ∧ 2 ≤ 26 ∧ 2 ≤ 4 ∧ 2 < 4 ∧
    ((cycloidal_disk_shape 50 2 (1 / 2) 26 4).1[2]? =
      some ((50 * Real.cos (2 * Real.pi * 2 / ((4 : ℝ) - 1)))
        - (2 * Real.cos (2 * Real.pi * 2 / ((4 : ℝ) - 1)
            + Real.arctan (Real.sin ((1 - (26 : ℝ)) * (2 * Real.pi * 2 / ((4 : ℝ) - 1)))
              / (50 / (1 / 2 * 26) - Real.cos ((1 - (26 : ℝ)) * (2 * Real.pi * 2 / ((4 : ℝ) - 1)))))))
        - (1 / 2 * Real.cos ((26 : ℝ) * (2 * Real.pi * 2 / ((4 : ℝ) - 1))))) ∧
     (cycloidal_disk_shape 50 2 (1 / 2) 26 4).2[2]? =
      some ((-50 * Real.sin (2 * Real.pi * 2 / ((4 : ℝ) - 1)))
        + (2 * Real.sin (2 * Real.pi * 2 / ((4 : ℝ) - 1)
            + Real.arctan (Real.sin ((1 - (26 : ℝ)) * (2 * Real.pi * 2 / ((4 : ℝ) - 1)))
              / (50 / (1 / 2 * 26) - Real.cos ((1 - (26 : ℝ)) * (2 * Real.pi * 2 / ((4 : ℝ) - 1)))))))
        + (1 / 2 * Real.sin ((26 : ℝ) * (2 * Real.pi * 2 / ((4 : ℝ) - 1)))))) :=
  ⟨by norm_num, by norm_num, by norm_num, by decide, by decide, by decide, by
    exact_mod_cast profile_formula 50 2 (1 / 2) 26 4 (by norm_num) (by norm_num)
      (by norm_num) (by decide) (by decide) 2 (by decide)⟩

/-- The x-formula takes the same value at t = 2π as at t = 0. -/
theorem disk_x_closes (R Rr e : ℝ) (N : ℕ) :
    disk_x R Rr e N (2 * π) = disk_x R Rr e N 0 := by
  simp [disk_x, arctan_denom, sin_one_sub_nat_two_pi, cos_one_sub_nat_two_pi,
    cos_nat_two_pi, Real.cos_two_pi, Real.sin_two_pi]

/-- The y-formula takes the same value at t = 2π as at t = 0. -/
theorem disk_y_closes (R Rr e : ℝ) (N : ℕ) :
    disk_y R Rr e N (2 * π) = disk_y R Rr e N 0 := by
  simp [disk_y, arctan_denom, sin_one_sub_nat_two_pi, cos_one_sub_nat_two_pi,
    sin_nat_two_pi, Real.cos_two_pi, Real.sin_two_pi]

/-- C2: for every valid parameter set the profile generator returns two
index-aligned coordinate lists of length exactly numPoints, and the first
and last coordinate pairs are exactly equal in real arithmetic, so the
curve closes. -/
theorem profile_closed (R Rr e : ℝ) (N n : ℕ)
    (hR : 0 < R) (hRr : 0 < Rr) (he : 0 < e) (hN : 2 ≤ N) (hn : 2 ≤ n) :
    (cycloidal_disk_shape R Rr e N n).1.length = n ∧
    (cycloidal_disk_shape R Rr e N n).2.length = n ∧
    (cycloidal_disk_shape R Rr e N n).1[0]? = (cycloidal_disk_shape R Rr e N n).1[n - 1]? ∧
    (cycloidal_disk_shape R Rr e N n).2[0]? = (cycloidal_disk_shape R Rr e N n).2[n - 1]? := by
  have h0 : 0 < n := by omega
  have hlast : n - 1 < n := by omega
  have hcast : ((n - 1 : ℕ) : ℝ) = (n : ℝ) - 1 := by
    have h1 : (1 : ℕ) ≤ n := by omega
    push_cast [h1]; ring
  have hne : ((n : ℝ) - 1) ≠ 0 := by
    have h2 : (2 : ℝ) ≤ (n : ℝ) := by exact_mod_cast hn
    linarith
  have ht : (0 : ℝ) + (2 * π - 0) * ((n - 1 : ℕ) : ℝ) / ((n : ℝ) - 1) = 2 * π := by
    rw [hcast]; field_simp
  have ht0 : (0 : ℝ) + (2 * π - 0) * ((0 : ℕ) : ℝ) / ((n : ℝ) - 1) = 0 := by
    norm_num
  refine ⟨by simp [cycloidal_disk_shape, linspace], by simp [cycloidal_disk_shape, linspace],
    ?_, ?_⟩ <;>
  · simp only [cycloidal_disk_shape, linspace, List.getElem?_map, List.getElem?_range h0,
      List.getElem?_range hlast, Option.map_some', ht, ht0]
    simp only [disk_x_closes, disk_y_closes]

/-- Witness for C2 at R = 50, Rr = 2, e = 0.5, N = 26, numPoints = 4. -/
theorem profile_closed_witness :
    (0 : ℝ) < 50 ∧ (0 : ℝ) < 2 ∧ (0 : ℝ) < 1 / 2 ∧ 2 ≤ 26 ∧ 2 ≤ 4 ∧
    ((cycloidal_disk_shape 50 2 (1 / 2) 26 4).1.length = 4 ∧
     (cycloidal_disk_shape 50 2 (1 / 2) 26 4).2.length = 4 ∧
     (cycloidal_disk_shape 50 2 (1 / 2) 26 4).1[0]? =
       (cycloidal_disk_shape 50 2 (1 / 2) 26 4).1[4 - 1]? ∧
     (cycloidal_disk_shape 50 2 (1 / 2) 26 4).2[0]? =
       (cycloidal_disk_shape 50 2 (1 / 2) 26 4).2[4 - 1]?) :=
  ⟨by norm_num, by norm_num, by norm_num, by decide, by decide,
   profile_closed 50 2 (1 / 2) 26 4 (by norm_num) (by norm_num) (by norm_num)
     (by decide) (by decide)⟩

/-- C3: for every R > 0, pinRadius > 0 and integer N ≥ 1, the pin layout
has exactly N centers, the i-th at angle 2π·i/N (start 0, step 2π/N,
endpoint excluded) and position (R·cos θ_i, R·sin θ_i), each at Euclidean
distance R from the origin, consecutive angles differing by exactly 2π/N;
R = 50, N = 4 gives pins (50,0), (0,50), (−50,0), (0,−50). -/
theorem pin_layout_correct (R r : ℝ) (N : ℕ) (hR : 0 < R) (hr : 0 < r) (hN : 1 ≤ N) :
    (pin_layout R N).length = N ∧
    (∀ i, i < N → (pin_layout R N)[i]? =
      some (R * Real.cos (2 * Real.pi * i / N), R * Real.sin (2 * Real.pi * i / N))) ∧
    (∀ i, i + 1 < N → ∀ a b, (pin_angles N)[i]? = some a →
      (pin_angles N)[i + 1]? = some b → b - a = 2 * Real.pi / N) ∧
    (∀ p ∈ pin_layout R N, Real.sqrt (p.1 ^ 2 + p.2 ^ 2) = R) ∧
    pin_layout 50 4 = [(50, 0), (0, 50), (-50, 0), (0, -50)] := by
  have hN0 : (N : ℝ) ≠ 0 := Nat.cast_ne_zero.mpr (by omega)
  refine ⟨by simp only [pin_layout, pin_angles, List.length_map, List.length_range],
    ?_, ?_, ?_, ?_⟩
  · intro i hi
    simp only [pin_layout, pin_angles, List.getElem?_map, List.getElem?_range hi,
      Option.map_some']
  · intro i hi a b ha hb
    simp only [pin_angles, List.getElem?_map, List.getElem?_range hi,
      List.getElem?_range (Nat.lt_of_succ_lt hi), Option.map_some',
      Option.some.injEq] at ha hb
    subst ha; subst hb
    push_cast
    field_simp
    ring
  · intro p hp
    simp only [pin_layout, pin_angles, List.mem_map, List.mem_range] at hp
    obtain ⟨θ, ⟨i, _, rfl⟩, rfl⟩ := hp
    have hs : (R * Real.cos (2 * π * i / N)) ^ 2 + (R * Real.sin (2 * π * i / N)) ^ 2
        = R ^ 2 := by
      nlinarith [Real.sin_sq_add_cos_sq (2 * π * i / N)]
    rw [hs, Real.sqrt_sq hR.le]
  · have h1 : 2 * π / 4 = π / 2 := by ring
    have h2 : 2 * π * (2 : ℝ) / 4 = π := by ring
    have h3 : 2 * π * (3 : ℝ) / 4 = π + π / 2 := by ring
    simp [pin_layout, pin_angles, List.range_succ]
    norm_num [h1, h2, h3, Real.cos_add, Real.sin_add]

/-- Witness for C3 at R = 50, pinRadius = 2, N = 4. -/
theorem pin_layout_correct_witness :
    (0 : ℝ) < 50 ∧ (0 : ℝ) < 2 ∧ 1 ≤ 4 ∧
    ((pin_layout 50 4).length = 4 ∧
     (∀ i : ℕ, i < 4 → (pin_layout 50 4)[i]? =
       some (50 * Real.cos (2 * Real.pi * i / 4), 50 * Real.sin (2 * Real.pi * i / 4))) ∧
     (∀ i : ℕ, i + 1 < 4 → ∀ a b : ℝ, (pin_angles 4)[i]? = some a →
       (pin_angles 4)[i + 1]? = some b → b - a = 2 * Real.pi / 4) ∧
     (∀ p ∈ pin_layout 50 4, Real.sqrt (p.1 ^ 2 + p.2 ^ 2) = 50) ∧
     pin_layout 50 4 = [(50, 0), (0, 50), (-50, 0), (0, -50)]) :=
  ⟨by norm_num, by norm_num, by norm_num, by
    exact_mod_cast pin_layout_correct 50 2 4 (by norm_num) (by norm_num) (by norm_num)⟩

/-- C4: for every integer N ≥ 2, drivePinDiameter > 0 and e > 0, the
derived quantities are gearReduction = N − 1 (so N = 26 gives 25) and
diskHoleDiameter = drivePinDiameter + 2·e rounded to three decimal places
(within 1/2000 of the exact sum; drivePinDiameter = 33.33 and e = 0.5
give exactly 34.33). -/
theorem derived_outputs_correct (N : ℕ) (drp e : ℚ)
    (hN : 2 ≤ N) (hdrp : 0 < drp) (he : 0 < e) :
    gear_reduction N = (N : ℤ) - 1 ∧
    gear_reduction 26 = 25 ∧
    |disk_hole_diameter drp e - (drp + 2 * e)| ≤ 1 / 2000 ∧
    disk_hole_diameter (3333 / 100) (1 / 2) = 3433 / 100 := by
  refine ⟨rfl, rfl, ?_, by norm_num [disk_hole_diameter, roundHalfEven]⟩
  have h := abs_roundHalfEven_sub_le ((drp + 2 * e) * 1000)
  rw [abs_le] at h ⊢
  unfold disk_hole_diameter
  constructor <;> [linarith [h.1]; linarith [h.2]]

/-- Witness for C4 at N = 26, drivePinDiameter = 33.33, e = 0.5. -/
theorem derived_outputs_correct_witness :
    2 ≤ 26 ∧ (0 : ℚ) < 3333 / 100 ∧ (0 : ℚ) < 1 / 2 ∧
    (gear_reduction 26 = (26 : ℤ) - 1 ∧
     gear_reduction 26 = 25 ∧
     |disk_hole_diameter (3333 / 100) (1 / 2) - (3333 / 100 + 2 * (1 / 2))| ≤ 1 / 2000 ∧
     disk_hole_diameter (3333 / 100) (1 / 2) = 3433 / 100) :=
  ⟨by decide, by norm_num, by norm_num,
   derived_outputs_correct 26 (3333 / 100) (1 / 2) (by decide) (by norm_num) (by norm_num)⟩

/-- Scaling R and e by the same positive k leaves the arctangent
denominator unchanged, since R/(e·N) is scale invariant. -/
theorem arctan_denom_scale (R e k : ℝ) (N : ℕ) (hk : 0 < k) (t : ℝ) :
    arctan_denom (k * R) (k * e) N t = arctan_denom R e N t := by
  unfold arctan_denom
  have h : k * e * (N : ℝ) = k * (e * N) := by ring
  rw [h, mul_div_mul_left R (e * (N : ℝ)) hk.ne']

/-- Pointwise scaling of the x-formula. -/
theorem disk_x_scale (R Rr e k : ℝ) (N : ℕ) (hk : 0 < k) (t : ℝ) :
    disk_x (k * R) (k * Rr) (k * e) N t = k * disk_x R Rr e N t := by
  unfold disk_x
  rw [arctan_denom_scale R e k N hk]
  ring

/-- Pointwise scaling of the y-formula. -/
theorem disk_y_scale (R Rr e k : ℝ) (N : ℕ) (hk : 0 < k) (t : ℝ) :
    disk_y (k * R) (k * Rr) (k * e) N t = k * disk_y R Rr e N t := by
  unfold disk_y
  rw [arctan_denom_scale R e k N hk]
  ring

/-- C7: scaling invariance — for every valid parameter set and positive
factor k, running the generator with (k·R, k·Rr, k·e) and the same N and
numPoints yields exactly the pointwise scaling by k of the original
output, in exact real arithmetic. -/
theorem profile_scaling (R Rr e k : ℝ) (N n : ℕ)
    (hR : 0 < R) (hRr : 0 < Rr) (he : 0 < e) (hN : 2 ≤ N) (hn : 2 ≤ n) (hk : 0 < k) :
    (cycloidal_disk_shape (k * R) (k * Rr) (k * e) N n).1 =
      (cycloidal_disk_shape R Rr e N n).1.map (fun v => k * v) ∧
    (cycloidal_disk_shape (k * R) (k * Rr) (k * e) N n).2 =
      (cycloidal_disk_shape R Rr e N n).2.map (fun v => k * v) := by
  constructor <;>
  · simp only [cycloidal_disk_shape, List.map_map]
    refine List.map_congr_left ?_
    intro t ht
    simp only [Function.comp_apply, disk_x_scale R Rr e k N hk, disk_y_scale R Rr e k N hk]

/-- Witness for C7 at R = 50, Rr = 2, e = 0.5, N = 26, numPoints = 4, k = 2. -/
theorem profile_scaling_witness :
    (0 : ℝ) < 50 ∧ (0 : ℝ) < 2 ∧ (0 : ℝ) < 1 / 2 ∧ 2 ≤ 26 ∧ 2 ≤ 4 ∧ (0 : ℝ) < 2 ∧
    ((cycloidal_disk_shape (2 * 50) (2 * 2) (2 * (1 / 2)) 26 4).1 =
      (cycloidal_disk_shape 50 2 (1 / 2) 26 4).1.map (fun v => 2 * v) ∧
     (cycloidal_disk_shape (2 * 50) (2 * 2) (2 * (1 / 2)) 26 4).2 =
      (cycloidal_disk_shape 50 2 (1 / 2) 26 4).2.map (fun v => 2 * v)) :=
  ⟨by norm_num, by norm_num, by norm_num, by decide, by decide, by norm_num,
   profile_scaling 50 2 (1 / 2) 2 26 4 (by norm_num) (by norm_num) (by norm_num)
     (by decide) (by decide) (by norm_num)⟩

/-- The x-formula is even about t = π (reflection t ↦ 2π − t). -/
theorem profile_mirror_x (R Rr e : ℝ) (N : ℕ) (t : ℝ) :
    disk_x R Rr e N (2 * π - t) = disk_x R Rr e N t := by
  have harg : (1 - (N : ℝ)) * (2 * π - t) = (1 - (N : ℝ)) * (2 * π) - (1 - (N : ℝ)) * t := by
    ring
  have hs : Real.sin ((1 - (N : ℝ)) * (2 * π - t)) = -Real.sin ((1 - (N : ℝ)) * t) := by
    rw [harg, Real.sin_sub, sin_one_sub_nat_two_pi, cos_one_sub_nat_two_pi]; ring
  have hc : Real.cos ((1 - (N : ℝ)) * (2 * π - t)) = Real.cos ((1 - (N : ℝ)) * t) := by
    rw [harg, Real.cos_sub, sin_one_sub_nat_two_pi, cos_one_sub_nat_two_pi]; ring
  have hdenom : arctan_denom R e N (2 * π - t) = arctan_denom R e N t := by
    unfold arctan_denom; rw [hc]
  have hNc : Real.cos ((N : ℝ) * (2 * π - t)) = Real.cos ((N : ℝ) * t) := by
    have h : (N : ℝ) * (2 * π - t) = (N : ℝ) * (2 * π) - (N : ℝ) * t := by ring
    rw [h, Real.cos_sub, cos_nat_two_pi, sin_nat_two_pi]; ring
  have hphase : 2 * π - t + Real.arctan (Real.sin ((1 - (N : ℝ)) * (2 * π - t))
      / arctan_denom R e N (2 * π - t)) =
      2 * π - (t + Real.arctan (Real.sin ((1 - (N : ℝ)) * t) / arctan_denom R e N t)) := by
    rw [hs, hdenom, neg_div, Real.arctan_neg]; ring
  unfold disk_x
  rw [hphase, Real.cos_two_pi_sub, Real.cos_two_pi_sub, hNc]

/-- The y-formula is odd about t = π (reflection t ↦ 2π − t). -/
theorem profile_mirror_y (R Rr e : ℝ) (N : ℕ) (t : ℝ) :
    disk_y R Rr e N (2 * π - t) = -disk_y R Rr e N t := by
  have harg : (1 - (N : ℝ)) * (2 * π - t) = (1 - (N : ℝ)) * (2 * π) - (1 - (N : ℝ)) * t := by
    ring
  have hs : Real.sin ((1 - (N : ℝ)) * (2 * π - t)) = -Real.sin ((1 - (N : ℝ)) * t) := by
    rw [harg, Real.sin_sub, sin_one_sub_nat_two_pi, cos_one_sub_nat_two_pi]; ring
  have hc : Real.cos ((1 - (N : ℝ)) * (2 * π - t)) = Real.cos ((1 - (N : ℝ)) * t) := by
    rw [harg, Real.cos_sub, sin_one_sub_nat_two_pi, cos_one_sub_nat_two_pi]; ring
  have hdenom : arctan_denom R e N (2 * π - t) = arctan_denom R e N t := by
    unfold arctan_denom; rw [hc]
  have hNs : Real.sin ((N : ℝ) * (2 * π - t)) = -Real.sin ((N : ℝ) * t) := by
    have h : (N : ℝ) * (2 * π - t) = (N : ℝ) * (2 * π) - (N : ℝ) * t := by ring
    rw [h, Real.sin_sub, cos_nat_two_pi, sin_nat_two_pi]; ring
  have hphase : 2 * π - t + Real.arctan (Real.sin ((1 - (N : ℝ)) * (2 * π - t))
      / arctan_denom R e N (2 * π - t)) =
      2 * π - (t + Real.arctan (Real.sin ((1 - (N : ℝ)) * t) / arctan_denom R e N t)) := by
    rw [hs, hdenom, neg_div, Real.arctan_neg]; ring
  unfold disk_y
  rw [hphase, Real.sin_two_pi_sub, Real.sin_two_pi_sub, hNs]
  ring

/-- C9: mirror symmetry about the x-axis — for every valid parameter set
and every t, x(2π − t) = x(t) and y(2π − t) = −y(t) in exact real
arithmetic; hence the sampled curve is its own reflection across the
x-axis: sample i of the x list equals sample n−1−i, and sample i of the
y list is the negation of sample n−1−i. -/
theorem profile_mirror (R Rr e : ℝ) (N n : ℕ)
    (hR : 0 < R) (hRr : 0 < Rr) (he : 0 < e) (hN : 2 ≤ N) (hn : 2 ≤ n) :
    (∀ t : ℝ, disk_x R Rr e N (2 * π - t) = disk_x R Rr e N t ∧
      disk_y R Rr e N (2 * π - t) = -disk_y R Rr e N t) ∧
    (∀ i, i < n →
      (cycloidal_disk_shape R Rr e N n).1[i]? =
        (cycloidal_disk_shape R Rr e N n).1[n - 1 - i]? ∧
      (cycloidal_disk_shape R Rr e N n).2[i]? =
        Option.map (fun v => -v) ((cycloidal_disk_shape R Rr e N n).2[n - 1 - i]?)) := by
  refine ⟨fun t => ⟨profile_mirror_x R Rr e N t, profile_mirror_y R Rr e N t⟩, ?_⟩
  intro i hi
  have hi2 : n - 1 - i < n := by omega
  have h1 : i ≤ n - 1 := by omega
  have h2 : 1 ≤ n := by omega
  have hcast : ((n - 1 - i : ℕ) : ℝ) = (n : ℝ) - 1 - i := by
    rw [Nat.cast_sub h1, Nat.cast_sub h2]
    norm_num
  have hne : ((n : ℝ) - 1) ≠ 0 := by
    have h3 : (2 : ℝ) ≤ (n : ℝ) := by exact_mod_cast hn
    linarith
  have ht : (0 : ℝ) + (2 * π - 0) * ((n - 1 - i : ℕ) : ℝ) / ((n : ℝ) - 1) =
      2 * π - ((0 : ℝ) + (2 * π - 0) * (i : ℝ) / ((n : ℝ) - 1)) := by
    rw [hcast]; field_simp; ring
  constructor <;>
    simp only [cycloidal_disk_shape, linspace, List.getElem?_map,
      List.getElem?_range hi, List.getElem?_range hi2, Option.map_some', ht,
      profile_mirror_x, profile_mirror_y, neg_neg]

/-- Witness for C9 at R = 50, Rr = 2, e = 0.5, N = 26, numPoints = 4,
specialised to t = π and sample index i = 1. -/
theorem profile_mirror_witness :
    (0 : ℝ) < 50 ∧ (0 : ℝ) < 2 ∧ (0 : ℝ) < 1 / 2 ∧ 2 ≤ 26 ∧ 2 ≤ 4 ∧
    (disk_x 50 2 (1 / 2) 26 (2 * π - π) = disk_x 50 2 (1 / 2) 26 π ∧
     disk_y 50 2 (1 / 2) 26 (2 * π - π) = -disk_y 50 2 (1 / 2) 26 π) ∧
    ((cycloidal_disk_shape 50 2 (1 / 2) 26 4).1[1]? =
       (cycloidal_disk_shape 50 2 (1 / 2) 26 4).1[4 - 1 - 1]? ∧
     (cycloidal_disk_shape 50 2 (1 / 2) 26 4).2[1]? =
       Option.map (fun v : ℝ => -v) ((cycloidal_disk_shape 50 2 (1 / 2) 26 4).2[4 - 1 - 1]?)) := by
  have h := profile_mirror 50 2 (1 / 2) 26 4 (by norm_num) (by norm_num) (by norm_num)
    (by decide) (by decide)
  exact ⟨by norm_num, by norm_num, by norm_num, by decide, by decide, h.1 π, h.2 1 (by decide)⟩

/-- Each profile point is the sum of three vectors of magnitudes R, Rr
and e, so its squared norm is at most (R + Rr + e)². -/
theorem disk_point_sq_bound (R Rr e : ℝ) (N : ℕ)
    (hR : 0 ≤ R) (hRr : 0 ≤ Rr) (he : 0 ≤ e) (t : ℝ) :
    (disk_x R Rr e N t) ^ 2 + (disk_y R Rr e N t) ^ 2 ≤ (R + Rr + e) ^ 2 := by
  unfold disk_x disk_y
  set p := t + Real.arctan (Real.sin ((1 - (N : ℝ)) * t) / arctan_denom R e N t) with hp
  have h1 := Real.sin_sq_add_cos_sq t
  have h2 := Real.sin_sq_add_cos_sq p
  have h3 := Real.sin_sq_add_cos_sq ((N : ℝ) * t)
  have e1 : -1 ≤ Real.cos t * Real.cos p + Real.sin t * Real.sin p := by
    nlinarith [sq_nonneg (Real.cos t + Real.cos p), sq_nonneg (Real.sin t + Real.sin p)]
  have e2 : -1 ≤ Real.cos t * Real.cos ((N : ℝ) * t) + Real.sin t * Real.sin ((N : ℝ) * t) := by
    nlinarith [sq_nonneg (Real.cos t + Real.cos ((N : ℝ) * t)),
      sq_nonneg (Real.sin t + Real.sin ((N : ℝ) * t))]
  have e3 : Real.cos p * Real.cos ((N : ℝ) * t) + Real.sin p * Real.sin ((N : ℝ) * t) ≤ 1 := by
    nlinarith [sq_nonneg (Real.cos p - Real.cos ((N : ℝ) * t)),
      sq_nonneg (Real.sin p - Real.sin ((N : ℝ) * t))]
  have P1 : 0 ≤ R * Rr * (1 + (Real.cos t * Real.cos p + Real.sin t * Real.sin p)) :=
    mul_nonneg (mul_nonneg hR hRr) (by linarith)
  have P2 : 0 ≤ R * e * (1 + (Real.cos t * Real.cos ((N : ℝ) * t)
      + Real.sin t * Real.sin ((N : ℝ) * t))) :=
    mul_nonneg (mul_nonneg hR he) (by linarith)
  have P3 : 0 ≤ Rr * e * (1 - (Real.cos p * Real.cos ((N : ℝ) * t)
      + Real.sin p * Real.sin ((N : ℝ) * t))) :=
    mul_nonneg (mul_nonneg hRr he) (by linarith)
  have q1 : R ^ 2 * (Real.sin t ^ 2 + Real.cos t ^ 2) = R ^ 2 * 1 := by rw [h1]
  have q2 : Rr ^ 2 * (Real.sin p ^ 2 + Real.cos p ^ 2) = Rr ^ 2 * 1 := by rw [h2]
  have q3 : e ^ 2 * (Real.sin ((N : ℝ) * t) ^ 2 + Real.cos ((N : ℝ) * t) ^ 2)
      = e ^ 2 * 1 := by rw [h3]
  nlinarith [P1, P2, P3, q1, q2, q3]

/-- Norm form of `disk_point_sq_bound`. -/
theorem disk_point_norm_bound (R Rr e : ℝ) (N : ℕ)
    (hR : 0 ≤ R) (hRr : 0 ≤ Rr) (he : 0 ≤ e) (t : ℝ) :
    Real.sqrt ((disk_x R Rr e N t) ^ 2 + (disk_y R Rr e N t) ^ 2) ≤ R + Rr + e := by
  have h := disk_point_sq_bound R Rr e N hR hRr he t
  calc Real.sqrt ((disk_x R Rr e N t) ^ 2 + (disk_y R Rr e N t) ^ 2)
      ≤ Real.sqrt ((R + Rr + e) ^ 2) := Real.sqrt_le_sqrt h
    _ = R + Rr + e := Real.sqrt_sq (by positivity)

/-- C10: boundedness — whenever the arctangent denominator is nonzero at
every sample, every generated profile point (x, y) satisfies
sqrt(x² + y²) ≤ R + Rr + e, and hence |x| ≤ R + Rr + e and
|y| ≤ R + Rr + e. -/
theorem profile_bounded (R Rr e : ℝ) (N n : ℕ)
    (hR : 0 < R) (hRr : 0 < Rr) (he : 0 < e) (hN : 2 ≤ N) (hn : 2 ≤ n)
    (hd : ∀ t ∈ linspace 0 (2 * Real.pi) n, arctan_denom R e N t ≠ 0)
    (i : ℕ) (x y : ℝ)
    (hx : (cycloidal_disk_shape R Rr e N n).1[i]? = some x)
    (hy : (cycloidal_disk_shape R Rr e N n).2[i]? = some y) :
    Real.sqrt (x ^ 2 + y ^ 2) ≤ R + Rr + e ∧ |x| ≤ R + Rr + e ∧ |y| ≤ R + Rr + e := by
  simp only [cycloidal_disk_shape, List.getElem?_map, Option.map_eq_some'] at hx hy
  obtain ⟨t, hti, rfl⟩ := hx
  obtain ⟨t2, ht2i, hy2⟩ := hy
  rw [hti, Option.some.injEq] at ht2i
  subst ht2i
  subst hy2
  have hb := disk_point_norm_bound R Rr e N hR.le hRr.le he.le t
  have hxb : |disk_x R Rr e N t| ≤
      Real.sqrt ((disk_x R Rr e N t) ^ 2 + (disk_y R Rr e N t) ^ 2) := by
    rw [← Real.sqrt_sq_eq_abs]
    exact Real.sqrt_le_sqrt (by nlinarith [sq_nonneg (disk_y R Rr e N t)])
  have hyb : |disk_y R Rr e N t| ≤
      Real.sqrt ((disk_x R Rr e N t) ^ 2 + (disk_y R Rr e N t) ^ 2) := by
    rw [← Real.sqrt_sq_eq_abs]
    exact Real.sqrt_le_sqrt (by nlinarith [sq_nonneg (disk_x R Rr e N t)])
  exact ⟨hb, le_trans hxb hb, le_trans hyb hb⟩

/-- Witness for C10 at R = 50, Rr = 2, e = 0.5, N = 26, numPoints = 2,
whose first sample point is (95/2, 0). -/
theorem profile_bounded_witness :
    ((0 : ℝ) < 50 ∧ (0 : ℝ) < 2 ∧ (0 : ℝ) < 1 / 2 ∧ 2 ≤ 26 ∧ 2 ≤ 2 ∧
     (∀ t ∈ linspace 0 (2 * Real.pi) 2, arctan_denom 50 (1 / 2) 26 t ≠ 0) ∧
     (cycloidal_disk_shape 50 2 (1 / 2) 26 2).1[0]? = some (95 / 2) ∧
     (cycloidal_disk_shape 50 2 (1 / 2) 26 2).2[0]? = some 0) ∧
    (Real.sqrt ((95 / 2 : ℝ) ^ 2 + (0 : ℝ) ^ 2) ≤ 50 + 2 + 1 / 2 ∧
     |(95 / 2 : ℝ)| ≤ 50 + 2 + 1 / 2 ∧ |(0 : ℝ)| ≤ 50 + 2 + 1 / 2) := by
  have hd : ∀ t ∈ linspace 0 (2 * Real.pi) 2, arctan_denom 50 (1 / 2) 26 t ≠ 0 := by
    intro t ht
    simp only [linspace, List.mem_map, List.mem_range] at ht
    obtain ⟨i, hi, rfl⟩ := ht
    interval_cases i <;> norm_num [arctan_denom]
    · have h : (25 : ℝ) * (2 * Real.pi) = ((25 : ℤ) : ℝ) * (2 * Real.pi) := by
        push_cast; ring
      rw [h, Real.cos_int_mul_two_pi]
      norm_num
  have hx : (cycloidal_disk_shape 50 2 (1 / 2) 26 2).1[0]? = some (95 / 2) := by
    norm_num [cycloidal_disk_shape, linspace, disk_x, arctan_denom, List.range_succ]
  have hy : (cycloidal_disk_shape 50 2 (1 / 2) 26 2).2[0]? = some 0 := by
    norm_num [cycloidal_disk_shape, linspace, disk_y, arctan_denom, List.range_succ]
  exact ⟨⟨by norm_num, by norm_num, by norm_num, by decide, by decide, hd, hx, hy⟩,
    profile_bounded 50 2 (1 / 2) 26 2 (by norm_num) (by norm_num) (by norm_num)
      (by decide) (by decide) hd 0 (95 / 2) 0 hx hy⟩

/-- C8: at the boundary N = 2 with e = 0.05 and R ≥ 5, the arctangent
denominator R/(e·N) − cos((1−N)·t) is positive (hence nonzero) for every
t, so the profile formula never divides by zero there. -/
theorem boundary_N2_no_div_zero (R : ℝ) (hR : 5 ≤ R) (t : ℝ) :
    0 < arctan_denom R (1 / 20) 2 t ∧ arctan_denom R (1 / 20) 2 t ≠ 0 := by
  have hc : Real.cos ((1 - ((2 : ℕ) : ℝ)) * t) ≤ 1 := Real.cos_le_one _
  have hd : R / ((1 / 20 : ℝ) * ((2 : ℕ) : ℝ)) = 10 * R := by push_cast; ring
  have hpos : 0 < arctan_denom R (1 / 20) 2 t := by
    unfold arctan_denom
    rw [hd]
    nlinarith [hc]
  exact ⟨hpos, ne_of_gt hpos⟩

/-- Witness for C8 at R = 5, t = 0. -/
theorem boundary_N2_no_div_zero_witness :
    (5 : ℝ) ≤ 5 ∧
    (0 < arctan_denom 5 (1 / 20) 2 0 ∧ arctan_denom 5 (1 / 20) 2 0 ≠ 0) :=
  ⟨by norm_num, boundary_N2_no_div_zero 5 (by norm_num) 0⟩

/-- Counterexample to C5: at R = 2, Rr = 1, e = 1, N = 2, numPoints = 2
the arctangent denominator is exactly zero at the first sample t = 0,
yet the generator surfaces no numeric-domain error: it returns the usual
full-length pair of coordinate lists (its return type carries no error
at all). -/
theorem domain_error_never_surfaced :
    arctan_denom 2 1 2 0 = 0 ∧
    (0 : ℝ) ∈ linspace 0 (2 * Real.pi) 2 ∧
    (cycloidal_disk_shape 2 1 1 2 2).1.length = 2 ∧
    (cycloidal_disk_shape 2 1 1 2 2).2.length = 2 := by
  refine ⟨by norm_num [arctan_denom], ?_,
    by simp [cycloidal_disk_shape, linspace],
    by simp [cycloidal_disk_shape, linspace]⟩
  simp only [linspace, List.mem_map, List.mem_range]
  exact ⟨0, by norm_num, by norm_num⟩

/-- C5 (amended): when some sampled t makes the arctangent denominator
exactly zero on a valid parameter set, the generator performs no check
and still returns the two full length-numPoints coordinate lists, with no
error surfaced (in NumPy the singular sample silently becomes NaN or an
arctan(±∞) value). -/
theorem singular_sample_still_full_output (R Rr e : ℝ) (N n : ℕ)
    (hR : 0 < R) (hRr : 0 < Rr) (he : 0 < e) (hN : 2 ≤ N) (hn : 2 ≤ n)
    (hzero : ∃ t ∈ linspace 0 (2 * Real.pi) n, arctan_denom R e N t = 0) :
    (cycloidal_disk_shape R Rr e N n).1.length = n ∧
    (cycloidal_disk_shape R Rr e N n).2.length = n := by
  simp [cycloidal_disk_shape, linspace]

/-- Witness for the amended C5 at R = 2, Rr = 1, e = 1, N = 2, numPoints = 2. -/
theorem singular_sample_still_full_output_witness :
    ((0 : ℝ) < 2 ∧ (0 : ℝ) < 1 ∧ (0 : ℝ) < 1 ∧ 2 ≤ 2 ∧ 2 ≤ 2 ∧
     (∃ t ∈ linspace 0 (2 * Real.pi) 2, arctan_denom 2 1 2 t = 0)) ∧
    ((cycloidal_disk_shape 2 1 1 2 2).1.length = 2 ∧
     (cycloidal_disk_shape 2 1 1 2 2).2.length = 2) := by
  have hz : ∃ t ∈ linspace 0 (2 * Real.pi) 2, arctan_denom 2 1 2 t = 0 := by
    refine ⟨0, ?_, by norm_num [arctan_denom]⟩
    simp only [linspace, List.mem_map, List.mem_range]
    exact ⟨0, by norm_num, by norm_num⟩
  exact ⟨⟨by norm_num, by norm_num, by norm_num, by decide, by decide, hz⟩,
    singular_sample_still_full_output 2 1 1 2 2 (by norm_num) (by norm_num)
      (by norm_num) (by decide) (by decide) hz⟩

/-- Counterexample to C6: with the positivity preconditions violated
(R = Rr = e = −1 ≤ 0, pin count N = 3) the computation raises nothing and
returns a full result of the requested length. -/
theorem no_invalid_parameter_error :
    (-1 : ℝ) ≤ 0 ∧
    (cycloidal_disk_shape (-1) (-1) (-1) 3 3).1.length = 3 ∧
    (cycloidal_disk_shape (-1) (-1) (-1) 3 3).2.length = 3 := by
  refine ⟨by norm_num,
    by simp [cycloidal_disk_shape, linspace],
    by simp [cycloidal_disk_shape, linspace]⟩

/-- C6 (amended): the computation performs no parameter validation; for
any parameters with e·N ≠ 0 (so the scalar division R/(e·N) is defined at
all), including non-positive R, Rr or e and pin counts below 2, it
returns the usual length-numPoints output instead of raising; no
InvalidParameterError exists in the code. -/
theorem invalid_params_return_full_output (R Rr e : ℝ) (N n : ℕ)
    (hinv : R ≤ 0 ∨ Rr ≤ 0 ∨ e ≤ 0 ∨ N < 2) (hediv : e * (N : ℝ) ≠ 0) :
    (cycloidal_disk_shape R Rr e N n).1.length = n ∧
    (cycloidal_disk_shape R Rr e N n).2.length = n := by
  simp [cycloidal_disk_shape, linspace]

/-- Witness for the amended C6 at R = Rr = e = −1, N = 3, numPoints = 3. -/
theorem invalid_params_return_full_output_witness :
    (((-1 : ℝ) ≤ 0 ∨ (-1 : ℝ) ≤ 0 ∨ (-1 : ℝ) ≤ 0 ∨ 3 < 2) ∧
     (-1 : ℝ) * ((3 : ℕ) : ℝ) ≠ 0) ∧
    ((cycloidal_disk_shape (-1) (-1) (-1) 3 3).1.length = 3 ∧
     (cycloidal_disk_shape (-1) (-1) (-1) 3 3).2.length = 3) :=
  ⟨⟨Or.inl (by norm_num), by norm_num⟩,
   invalid_params_return_full_output (-1) (-1) (-1) 3 3 (Or.inl (by norm_num))
     (by norm_num)⟩

end CycloidalCalculator
